import Mathlib

/-!
Verification development for the dolomite-engine training framework.

This file gives a shallow embedding of the data-shaping and orchestration
logic of the repository and proves the specified properties about it:

* `_pad` — the batch padding engine of `dolomite_engine/model_wrapper/base.py`
  (encoder-decoder padding, decoder-only left/right padding, packed
  "padding-free" mode, loss masking, final tensor conversion);
* the post-processing of `ModelWrapper.generate` (trimming the echoed input
  and counting generated tokens);
* the NEFTune noisy embedding forward override;
* the analytic FLOPs estimate `get_model_tflops`;
* the checkpoint-resume metadata reconciliation of `pretrain.main`;
* the no-op gate of `pretrain.evaluate`.

Token sequences are `List Int` (PyTorch int64 token ids), batches are
`List (List Int)`.  Python's fallibility (`raise`, `assert`, `max([])`,
`torch.tensor` on ragged nested lists) is modelled with `Except String`.
-/

/-- Padding side enum (`dolomite_engine.enums.PaddingSide`). -/
inductive PaddingSide
  | left
  | right
deriving DecidableEq, Repr

/-- Loss mask enum (`dolomite_engine.enums.LossMask`). -/
inductive LossMask
  | output_only
  | no_mask
deriving DecidableEq, Repr

/-- Python `repr` of the (optional) loss-mask value, as it appears inside the
`unexpected loss_mask (...)` error message. -/
def lossMaskRepr : Option LossMask → String
  | none => "None"
  | some LossMask.output_only => "LossMask.output_only"
  | some LossMask.no_mask => "LossMask.no_mask"

/-- The triple returned by `_pad`: `input_ids`, optional `attention_mask`
(absent in packed mode), optional `labels` (absent when `outputs is None`). -/
structure PadResult where
  input_ids : List (List Int)
  attention_mask : Option (List (List Int))
  labels : Option (List (List Int))
deriving DecidableEq, Repr

/-- `max(list(map(len, xs)))` of the Python source (callers guard `xs ≠ []`,
mirroring Python's `max` raising on an empty sequence). -/
def maxLen (xs : List (List Int)) : Nat :=
  xs.foldr (fun a m => Nat.max a.length m) 0

/-- One padded row:
left: `[pad] * (width - len(a)) + a`; right: `a + [pad] * (width - len(a))`.
(`[x] * n` is empty for `n ≤ 0` in Python, matching `Nat` subtraction.) -/
def padRow : PaddingSide → Int → Nat → List Int → List Int
  | PaddingSide.left, p, w, a => List.replicate (w - a.length) p ++ a
  | PaddingSide.right, p, w, a => a ++ List.replicate (w - a.length) p

/-- One attention-mask row:
left: `[0] * (width - len(a)) + [1] * len(a)`; right: the mirror image. -/
def maskRow : PaddingSide → Nat → List Int → List Int
  | PaddingSide.left, w, a => List.replicate (w - a.length) 0 ++ List.replicate a.length 1
  | PaddingSide.right, w, a => List.replicate a.length 1 ++ List.replicate (w - a.length) 0

/-- Label row for the packed path and the start of the right-padding path:
`[mask_value] * (len(a_in) - len(a_out)) + a_out`. -/
def labelRowPacked (maskValue : Int) (ain aout : List Int) : List Int :=
  List.replicate (ain.length - aout.length) maskValue ++ aout

/-- Label row for the decoder-only right-padding `output_only` branch:
`[mask] * (len(a_in) - len(a_out)) + a_out + [mask] * (max_length - len(a_in))`. -/
def labelRowRight (maskValue : Int) (maxLength : Nat) (ain aout : List Int) : List Int :=
  List.replicate (ain.length - aout.length) maskValue ++ aout
    ++ List.replicate (maxLength - ain.length) maskValue

/-- The branch structure of `_pad` before the final tensor conversion
(`model_wrapper/base.py`, lines 325-389).  Errors mirror Python exceptions:
the `max()` of an empty sequence, the encoder-decoder `assert` on the loss
mask, `zip` over `None`, and the `unexpected loss_mask (...)` `ValueError`. -/
def _padRaw (inputs : List (List Int)) (outputs : Option (List (List Int)))
    (pad_token_id : Int) (padding_side : PaddingSide) (is_encoder_decoder : Bool)
    (loss_mask : Option LossMask) (use_padding_free_transformer : Bool)
    (labels_mask_value : Int) : Except String PadResult :=
  if is_encoder_decoder then
    if inputs.isEmpty then Except.error "max() arg is an empty sequence"
    else
      let input_max_length := maxLen inputs
      let input_ids := inputs.map (padRow padding_side pad_token_id input_max_length)
      let attention_mask := inputs.map (maskRow padding_side input_max_length)
      match outputs with
      | none => Except.ok ⟨input_ids, some attention_mask, none⟩
      | some outs =>
        if loss_mask ≠ some LossMask.output_only then
          Except.error "only output_only loss mask is supported with encoder decoder models"
        else if outs.isEmpty then Except.error "max() arg is an empty sequence"
        else
          let output_max_length := maxLen outs
          Except.ok ⟨input_ids, some attention_mask,
            some (outs.map (fun a => a ++ List.replicate (output_max_length - a.length) labels_mask_value))⟩
  else
    if use_padding_free_transformer then
      match loss_mask with
      | some LossMask.output_only =>
        match outputs with
        | none => Except.error "zip argument 2 must support iteration"
        | some outs =>
          Except.ok ⟨inputs, none, some (List.zipWith (labelRowPacked labels_mask_value) inputs outs)⟩
      | some LossMask.no_mask => Except.ok ⟨inputs, none, some inputs⟩
      | none => Except.error ("unexpected loss_mask (" ++ lossMaskRepr none ++ ")")
    else
      if inputs.isEmpty then Except.error "max() arg is an empty sequence"
      else
        let max_length := maxLen inputs
        let input_ids := inputs.map (padRow padding_side pad_token_id max_length)
        let attention_mask := inputs.map (maskRow padding_side max_length)
        match outputs with
        | none => Except.ok ⟨input_ids, some attention_mask, none⟩
        | some outs =>
          match padding_side, loss_mask with
          | PaddingSide.left, some LossMask.output_only =>
            Except.ok ⟨input_ids, some attention_mask,
              some (outs.map (padRow PaddingSide.left labels_mask_value max_length))⟩
          | PaddingSide.right, some LossMask.output_only =>
            Except.ok ⟨input_ids, some attention_mask,
              some (List.zipWith (labelRowRight labels_mask_value max_length) inputs outs)⟩
          | _, some LossMask.no_mask =>
            Except.ok ⟨input_ids, some attention_mask, some inputs⟩
          | _, none => Except.error ("unexpected loss_mask (" ++ lossMaskRepr none ++ ")")

/-- `torch.tensor` on a nested list succeeds exactly when the rows are
rectangular (all the same length). -/
def allSameLength (rows : List (List Int)) : Bool :=
  rows.all (fun r => r.length == (rows.headD []).length)

/-- Tensor conversion of a nested list of token ids; a ragged list raises. -/
def tensorize (rows : List (List Int)) : Except String (List (List Int)) :=
  if allSameLength rows then Except.ok rows
  else Except.error "expected sequence of equal length"

/-- Tensor conversion of an optional nested list (labels are converted only
when present). -/
def tensorizeOpt (rows : Option (List (List Int))) : Except String (Option (List (List Int))) :=
  match rows with
  | none => Except.ok none
  | some rs => (tensorize rs).map some

/-- `_pad` of `model_wrapper/base.py` (lines 299-397): the branch logic of
`_padRaw` followed, in non-packed mode only, by the tensor conversion of
`input_ids`, `attention_mask` and (when present) `labels`. -/
def _pad (inputs : List (List Int)) (outputs : Option (List (List Int)))
    (pad_token_id : Int) (padding_side : PaddingSide) (is_encoder_decoder : Bool)
    (loss_mask : Option LossMask) (use_padding_free_transformer : Bool := false)
    (labels_mask_value : Int := -100) : Except String PadResult :=
  match _padRaw inputs outputs pad_token_id padding_side is_encoder_decoder loss_mask
      use_padding_free_transformer labels_mask_value with
  | Except.error e => Except.error e
  | Except.ok r =>
    if use_padding_free_transformer then Except.ok r
    else
      match tensorize r.input_ids with
      | Except.error e => Except.error e
      | Except.ok ii =>
        match tensorizeOpt r.attention_mask with
        | Except.error e => Except.error e
        | Except.ok am =>
          match tensorizeOpt r.labels with
          | Except.error e => Except.error e
          | Except.ok ls => Except.ok ⟨ii, am, ls⟩

/-- The trimming step of `ModelWrapper.generate` (line 183-184): for
decoder-only models the echoed input of length `inputLen` is stripped from
each generated row; encoder-decoder output is kept whole. -/
def trimGenerated (is_encoder_decoder : Bool) (inputLen : Nat)
    (generated : List (List Int)) : List (List Int) :=
  if is_encoder_decoder then generated
  else generated.map (fun row => row.drop inputLen)

/-- The token counting of `ModelWrapper.generate` (line 187):
`(generated != eos).sum(dim=-1) + 1` per row. -/
def numGeneratedTokens (eos : Int) (trimmed : List (List Int)) : List Nat :=
  trimmed.map (fun row => row.countP (fun t => t != eos) + 1)

/-- The NEFTune override `_noisy_forward` (`model_wrapper/base.py`,
lines 271-279) with the base lookup already applied and the sampled noise
tensor made explicit: in training mode the noise is added elementwise to the
looked-up embeddings `x`; otherwise `x` passes through unmodified.  Tensors
are flattened to lists, so `x.length` is `torch.numel(x)`. -/
def neftNoisyForward {α : Type} [Add α] (training : Bool) (x noise : List α) : List α :=
  if training then List.zipWith (fun a b => a + b) x noise else x

/-- MLP FLOPs term of `get_model_tflops` (lines 202-204): `4*b*s*h*f`, plus
`2*b*s*h*f` more when the activation function is GLU-family. -/
def mlp_flops (is_glu_act : Bool) (b s h f : ℚ) : ℚ :=
  let base := 4 * b * s * h * f
  if is_glu_act then base + 2 * b * s * h * f else base

/-- Attention FLOPs term of `get_model_tflops` (line 206). -/
def attention_flops (b s h n k : ℚ) : ℚ :=
  4 * b * s * h * (h * (1 + k / n) + s)

/-- Forward FLOPs of one layer (line 208). -/
def forward_flops (is_glu_act : Bool) (b s h f n k : ℚ) : ℚ :=
  attention_flops b s h n k + mlp_flops is_glu_act b s h f

/-- Backward FLOPs (lines 210-212): twice the forward cost, except under
block-wise gradient checkpointing where it is forward divided by
`checkpoint_every`. -/
def backward_flops (block_checkpointing : Bool) (checkpoint_every fwd : ℚ) : ℚ :=
  if block_checkpointing then fwd / checkpoint_every else 2 * fwd

/-- `ModelWrapper.get_model_tflops` (lines 192-218), with the GLU test and
config hyperparameters as arguments. -/
def get_model_tflops (is_glu_act block_checkpointing : Bool)
    (checkpoint_every b s h f n k l v : ℚ) : ℚ :=
  let fwd := forward_flops is_glu_act b s h f n k
  let bwd := backward_flops block_checkpointing checkpoint_every fwd
  (l * (fwd + bwd) + 6 * b * s * h * v) / 10 ^ 12

/-- Checkpoint resumption metadata (`pretrain.py`); the dict holds at least
`consumed_samples`. -/
structure CheckpointMetadata where
  consumed_samples : Nat
deriving DecidableEq, Repr

/-- Lines 369-371 of `pretrain.main`: when `load_dataloader_state` is false
and metadata is present, `consumed_samples` is reset to 0; otherwise the
metadata is kept as loaded. -/
def resetDataloaderState (load_dataloader_state : Bool)
    (metadata : Option CheckpointMetadata) : Option CheckpointMetadata :=
  if ¬load_dataloader_state then
    match metadata with
    | some m => some { m with consumed_samples := 0 }
    | none => none
  else metadata

/-- Line 374 of `pretrain.main`: the consumed-samples count handed to the
dataloader factory (`0 if metadata is None else metadata["consumed_samples"]`). -/
def dataloaderConsumedSamples (metadata : Option CheckpointMetadata) : Nat :=
  match metadata with
  | none => 0
  | some m => m.consumed_samples

/-- The checkpoint-load sequence of `pretrain.main` (lines 361-375): the
starting iteration returned by `load_checkpoint_for_training` is passed
through unchanged while the metadata goes through `resetDataloaderState`. -/
def loadAndReconcile (load_dataloader_state : Bool) (saved_step : Nat)
    (saved_meta : Option CheckpointMetadata) : Nat × Option CheckpointMetadata :=
  (saved_step, resetDataloaderState load_dataloader_state saved_meta)

/-- Observable effects of `pretrain.evaluate`: a model forward pass, the
cross-rank metric all-reduce, and the switches into eval / back into train
mode. -/
inductive EvalEffect
  | forward
  | allReduce
  | setEvalMode
  | setTrainMode
deriving DecidableEq, Repr

/-- `val_dataloaders is None or len(val_dataloaders) == 0` (lines 262-263 and
273 of `pretrain.py`). -/
def isValDataloaderNone {α : Type} (dls : Option (List α)) : Bool :=
  match dls with
  | none => true
  | some l => l.isEmpty

/-- Effect trace of `pretrain.evaluate` (lines 236-305).  Under tensor
parallelism (`tpWorldSize > 1`) the dataloader-presence decision is taken
from tensor-parallel rank 0's dataloaders (`rank0Dls`, broadcast to the
sibling ranks); otherwise from the local ones.  If the decision says "none",
the function returns immediately with an empty trace.  Otherwise the model
enters eval mode, runs `evalSteps` forward passes and one all-reduce per
dataset group, and returns to train mode.  `Option.none` as result models the
Python `TypeError` of zipping group names with a `None` dataloader list. -/
def evaluateEffects {α β : Type} (tpWorldSize : Nat)
    (rank0Dls localDls : Option (List α)) (groupNames : List β)
    (evalSteps : Nat) : Option (List EvalEffect) :=
  let is_val_dataloader_none :=
    if tpWorldSize > 1 then isValDataloaderNone rank0Dls else isValDataloaderNone localDls
  if is_val_dataloader_none then some []
  else
    match localDls with
    | none => none
    | some dls =>
      some (EvalEffect.setEvalMode ::
        ((groupNames.zip dls).map
          (fun _ => List.replicate evalSteps EvalEffect.forward ++ [EvalEffect.allReduce])).flatten
        ++ [EvalEffect.setTrainMode])

/-! ## Helper lemmas -/

theorem getD_of_lt {α : Type} (l : List α) (i : Nat) (d : α) (h : i < l.length) :
    l.getD i d = l[i] := by
  rw [List.getD_eq_getElem?_getD, List.getElem?_eq_getElem h, Option.getD_some]

theorem getD_map_of_lt {α β : Type} (f : α → β) (l : List α) (i : Nat) (d : β) (d' : α)
    (h : i < l.length) : (l.map f).getD i d = f (l.getD i d') := by
  rw [getD_of_lt _ _ _ (by simpa using h), getD_of_lt _ _ _ h, List.getElem_map]

theorem le_maxLen {xs : List (List Int)} {a : List Int} (h : a ∈ xs) :
    a.length ≤ maxLen xs := by
  induction xs with
  | nil => cases h
  | cons x xs ih =>
    rcases List.mem_cons.mp h with rfl | h
    · exact Nat.le_max_left _ _
    · exact Nat.le_trans (ih h) (Nat.le_max_right _ _)

theorem maxLen_le {xs : List (List Int)} {w : Nat} (h : ∀ a ∈ xs, a.length ≤ w) :
    maxLen xs ≤ w := by
  induction xs with
  | nil => exact Nat.zero_le w
  | cons x xs ih =>
    exact Nat.max_le.mpr ⟨h x (List.mem_cons_self x xs), ih fun a ha => h a (List.mem_cons_of_mem x ha)⟩

theorem length_padRow (side : PaddingSide) (p : Int) {w : Nat} {a : List Int}
    (h : a.length ≤ w) : (padRow side p w a).length = w := by
  cases side <;> simp [padRow] <;> omega

theorem length_maskRow (side : PaddingSide) {w : Nat} {a : List Int}
    (h : a.length ≤ w) : (maskRow side w a).length = w := by
  cases side <;> simp [maskRow] <;> omega

theorem sum_maskRow (side : PaddingSide) (w : Nat) (a : List Int) :
    (maskRow side w a).sum = (a.length : Int) := by
  cases side <;> simp [maskRow, List.sum_append, List.sum_replicate]

theorem padRow_of_len_eq (side : PaddingSide) (p : Int) {w : Nat} {a : List Int}
    (h : a.length = w) : padRow side p w a = a := by
  cases side <;> simp [padRow, h]

theorem allSameLength_of_forall {rows : List (List Int)} {w : Nat}
    (h : ∀ r ∈ rows, r.length = w) : allSameLength rows = true := by
  cases rows with
  | nil => rfl
  | cons r rs =>
    simp only [allSameLength, List.all_eq_true, List.headD_cons]
    intro x hx
    rw [h x hx, h r (List.mem_cons_self r rs)]
    exact beq_self_eq_true _

theorem forall_of_allSameLength {rows : List (List Int)}
    (h : allSameLength rows = true) : ∀ r ∈ rows, r.length = (rows.headD []).length := by
  intro r hr
  have := (List.all_eq_true.mp h) r hr
  exact eq_of_beq this

theorem tensorize_ok_of_forall {rows : List (List Int)} {w : Nat}
    (h : ∀ r ∈ rows, r.length = w) : tensorize rows = Except.ok rows := by
  simp [tensorize, allSameLength_of_forall h]

theorem zipWith_getElem_lt {α β γ : Type} (f : α → β → γ) (as : List α) (bs : List β)
    (i : Nat) (ha : i < as.length) (hb : i < bs.length) :
    i < (List.zipWith f as bs).length := by
  simp only [List.length_zipWith]
  omega

/-! ## Claim theorems -/

/-- C7: in `get_model_tflops` the MLP FLOPs term equals `6*b*s*h*f` when the
activation function is GLU-family and `4*b*s*h*f` otherwise, so two calls
differing only in the activation differ by exactly `2*b*s*h*f` per layer in
the forward term. -/
theorem c7_glu_doubles_mlp_term (b s h f n k : ℚ) :
    mlp_flops true b s h f = 6 * b * s * h * f
    ∧ mlp_flops false b s h f = 4 * b * s * h * f
    ∧ forward_flops true b s h f n k - forward_flops false b s h f n k = 2 * b * s * h * f := by
  refine ⟨?_, ?_, ?_⟩ <;> simp [mlp_flops, forward_flops, attention_flops] <;> ring

/-- C8: on checkpoint load, `load_dataloader_state = false` resets the
reconstructed metadata's `consumed_samples` to 0 while the starting iteration
still resumes from the saved step; with the flag true the saved value is kept
and handed to the dataloader factory. -/
theorem c8_checkpoint_resume (S N : Nat) :
    (loadAndReconcile false S (some ⟨N⟩)).1 = S
    ∧ (loadAndReconcile false S (some ⟨N⟩)).2 = some ⟨0⟩
    ∧ dataloaderConsumedSamples (loadAndReconcile false S (some ⟨N⟩)).2 = 0
    ∧ (loadAndReconcile true S (some ⟨N⟩)).1 = S
    ∧ (loadAndReconcile true S (some ⟨N⟩)).2 = some ⟨N⟩
    ∧ dataloaderConsumedSamples (loadAndReconcile true S (some ⟨N⟩)).2 = N :=
  ⟨rfl, rfl, rfl, rfl, rfl, rfl⟩

/-- C2: decoder-only packed (padding-free) mode: with `output_only` each
labels row is `len(input)-len(output)` sentinels followed by the output
verbatim (`input=[1,2,3,4,5]`, `output=[4,5]` yields `[-100,-100,-100,4,5]`);
with `no_mask` labels equal inputs; any other loss-mask value raises an
unrecognized-policy error naming the bad value. -/
theorem c2_packed_mode_labels (inputs outs : List (List Int))
    (outputs : Option (List (List Int))) (pad : Int) (side : PaddingSide) :
    _pad inputs (some outs) pad side false (some LossMask.output_only) true (-100)
      = Except.ok ⟨inputs, none, some (List.zipWith (labelRowPacked (-100)) inputs outs)⟩
    ∧ _pad [[1, 2, 3, 4, 5]] (some [[4, 5]]) pad side false (some LossMask.output_only) true (-100)
      = Except.ok ⟨[[1, 2, 3, 4, 5]], none, some [[-100, -100, -100, 4, 5]]⟩
    ∧ _pad inputs (some outs) pad side false (some LossMask.no_mask) true (-100)
      = Except.ok ⟨inputs, none, some inputs⟩
    ∧ _pad inputs outputs pad side false none true (-100)
      = Except.error ("unexpected loss_mask (" ++ lossMaskRepr none ++ ")") := by
  refine ⟨?_, ?_, ?_, ?_⟩ <;> simp [_pad, _padRaw, labelRowPacked, List.zipWith]

/-- C6: `generate` returns per-example token counts equal to 1 plus the
number of tokens in the trimmed generated sequence that differ from the
end-of-sequence id; a generated row `[5, 7, eos, eos]` yields count 3. -/
theorem c6_generate_token_count (eos : Int) (gen : List (List Int)) (inputLen : Nat) :
    numGeneratedTokens eos (trimGenerated false inputLen gen)
      = gen.map (fun row => 1 + ((row.drop inputLen).filter (fun t => decide (t ≠ eos))).length)
    ∧ (eos ≠ 5 → eos ≠ 7 → numGeneratedTokens eos [[5, 7, eos, eos]] = [3]) := by
  constructor
  · have hp : (fun t : Int => t != eos) = (fun t => decide (t ≠ eos)) := by
      funext t; by_cases h : t = eos <;> simp [h, bne]
    simp [numGeneratedTokens, trimGenerated, List.map_map, hp,
      List.countP_eq_length_filter, Function.comp, Nat.add_comm]
  · intro h5 h7
    have b5 : ((5 : Int) != eos) = true := by simp [bne]; exact fun h => h5 h.symm
    have b7 : ((7 : Int) != eos) = true := by simp [bne]; exact fun h => h7 h.symm
    simp [numGeneratedTokens, List.countP_cons, b5, b7]

/-- C6 witness at `eos = 2`. -/
theorem c6_generate_token_count_witness :
    (2 : Int) ≠ 5 ∧ (2 : Int) ≠ 7 ∧ numGeneratedTokens 2 [[5, 7, 2, 2]] = [3] :=
  ⟨by decide, by decide, (c6_generate_token_count 2 [] 0).2 (by decide) (by decide)⟩

/-- C9: when the validation dataloader list is decided to be `None`/empty
(on tensor-parallel rank 0 when tensor parallelism is active, locally
otherwise), `evaluate` returns without any model forward pass, metric
all-reduce, or switch into evaluation mode. -/
theorem c9_evaluate_noop {α β : Type} (tpWorldSize : Nat)
    (rank0Dls localDls : Option (List α)) (groupNames : List β) (evalSteps : Nat)
    (h : (if tpWorldSize > 1 then isValDataloaderNone rank0Dls
          else isValDataloaderNone localDls) = true) :
    ∃ effs, evaluateEffects tpWorldSize rank0Dls localDls groupNames evalSteps = some effs
      ∧ EvalEffect.forward ∉ effs ∧ EvalEffect.allReduce ∉ effs
      ∧ EvalEffect.setEvalMode ∉ effs := by
  refine ⟨[], ?_, by simp, by simp, by simp⟩
  simp only [evaluateEffects, h, if_true]

/-- C9 witness: tensor-parallel world of 2 where rank 0 holds an empty
dataloader list while the sibling rank holds a non-empty one. -/
theorem c9_evaluate_noop_witness :
    (if 2 > 1 then isValDataloaderNone (some ([] : List Nat))
     else isValDataloaderNone (some [1])) = true
    ∧ ∃ effs, evaluateEffects 2 (some ([] : List Nat)) (some [1]) [0] 3 = some effs
        ∧ EvalEffect.forward ∉ effs ∧ EvalEffect.allReduce ∉ effs
        ∧ EvalEffect.setEvalMode ∉ effs :=
  ⟨by decide, c9_evaluate_noop 2 (some []) (some [1]) [0] 3 (by decide)⟩

theorem tensorize_ok_inv {rows l : List (List Int)} (h : tensorize rows = Except.ok l) :
    allSameLength rows = true ∧ l = rows := by
  by_cases ha : allSameLength rows = true
  · refine ⟨ha, ?_⟩
    simp only [tensorize, ha, if_true, Except.ok.injEq] at h
    exact h.symm
  · simp [tensorize, ha] at h

theorem headD_mem {α : Type} {l : List α} (d : α) (h : l ≠ []) : l.headD d ∈ l := by
  cases l with
  | nil => exact absurd rfl h
  | cons x xs => exact List.mem_cons_self x xs

/-- C5: with NEFTune enabled, the wrapped embedding forward adds (in training
mode only) elementwise noise whose magnitude is bounded by
`alpha / sqrt(embedding_dim)`; outside training mode the base output passes
through unmodified.  `x` is the flattened looked-up embedding tensor, so
`x.length` is `torch.numel(x)` and the embedding dimension `d` divides it
(`d ≤ x.length` whenever at least one token is embedded); the sampled noise
is uniform in `[-alpha/sqrt(numel), alpha/sqrt(numel)]` per the source. -/
theorem c5_neftune_noise_bound (alpha : ℝ) (d : ℕ) (x noise : List ℝ)
    (hd : 0 < d) (hdim : d ≤ x.length) (halpha : 0 ≤ alpha)
    (hlen : noise.length = x.length)
    (hnoise : ∀ e ∈ noise, |e| ≤ alpha / Real.sqrt (x.length)) :
    (∀ i, i < x.length →
      |(neftNoisyForward true x noise).getD i 0 - x.getD i 0| ≤ alpha / Real.sqrt d)
    ∧ neftNoisyForward false x noise = x := by
  constructor
  · intro i hi
    have hn : i < noise.length := by omega
    have hz : i < (List.zipWith (fun a b : ℝ => a + b) x noise).length :=
      zipWith_getElem_lt _ x noise i hi hn
    have h1 : (neftNoisyForward true x noise).getD i 0 = x[i] + noise[i] := by
      simp only [neftNoisyForward, if_true]
      rw [getD_of_lt _ _ _ hz, List.getElem_zipWith]
    have h2 : x.getD i 0 = x[i] := getD_of_lt _ _ _ hi
    rw [h1, h2, add_sub_cancel_left]
    refine le_trans (hnoise _ (List.getElem_mem hn)) ?_
    refine div_le_div_of_nonneg_left halpha ?_ ?_
    · exact Real.sqrt_pos.mpr (by exact_mod_cast hd)
    · exact Real.sqrt_le_sqrt (by exact_mod_cast hdim)
  · rfl

/-- C5 witness at `alpha = 1`, `d = 1`, `x = [1]`, `noise = [0]`. -/
theorem c5_neftune_noise_bound_witness :
    0 < 1 ∧ 1 ≤ ([(1 : ℝ)] : List ℝ).length ∧ (0 : ℝ) ≤ 1
    ∧ ([(0 : ℝ)] : List ℝ).length = ([(1 : ℝ)] : List ℝ).length
    ∧ (∀ e ∈ ([(0 : ℝ)] : List ℝ), |e| ≤ 1 / Real.sqrt (([(1 : ℝ)] : List ℝ).length))
    ∧ ((∀ i, i < ([(1 : ℝ)] : List ℝ).length →
        |(neftNoisyForward true [(1 : ℝ)] [(0 : ℝ)]).getD i 0
          - ([(1 : ℝ)] : List ℝ).getD i 0| ≤ 1 / Real.sqrt ((1 : ℕ) : ℝ))
      ∧ neftNoisyForward false [(1 : ℝ)] [(0 : ℝ)] = [(1 : ℝ)]) := by
  refine ⟨Nat.one_pos, le_refl 1, zero_le_one, rfl, ?_, ?_⟩
  · intro e he
    simp only [List.mem_singleton] at he
    subst he
    simp [Real.sqrt_one]
  · exact c5_neftune_noise_bound 1 1 [(1 : ℝ)] [(0 : ℝ)] Nat.one_pos (le_refl 1)
      zero_le_one rfl (by
        intro e he
        simp only [List.mem_singleton] at he
        subst he
        simp [Real.sqrt_one])

/-- C4: on the encoder-decoder path of `_pad`, labels are always padded on
the right with the sentinel to the batch-wide max output length regardless of
the `padding_side` argument, and any loss mask other than `output_only` fails
with the configuration error. -/
theorem c4_encdec_labels_right_padded (inputs outs : List (List Int)) (pad : Int)
    (side : PaddingSide) (lm : Option LossMask)
    (hne : inputs ≠ []) (hone : outs ≠ []) :
    (lm ≠ some LossMask.output_only →
      _pad inputs (some outs) pad side true lm false (-100)
        = Except.error "only output_only loss mask is supported with encoder decoder models")
    ∧ ∃ res, _pad inputs (some outs) pad side true (some LossMask.output_only) false (-100)
          = Except.ok res
        ∧ res.labels
          = some (outs.map (fun a => a ++ List.replicate (maxLen outs - a.length) (-100))) := by
  have hE : inputs.isEmpty = false := List.isEmpty_eq_false.mpr hne
  have hOE : outs.isEmpty = false := List.isEmpty_eq_false.mpr hone
  constructor
  · intro hlm
    simp [_pad, _padRaw, hE, hlm]
  · have hraw : _padRaw inputs (some outs) pad side true (some LossMask.output_only) false (-100)
        = Except.ok ⟨inputs.map (padRow side pad (maxLen inputs)),
            some (inputs.map (maskRow side (maxLen inputs))),
            some (outs.map (fun a => a ++ List.replicate (maxLen outs - a.length) (-100)))⟩ := by
      simp [_padRaw, hE, hOE]
    have tII : tensorize (inputs.map (padRow side pad (maxLen inputs)))
        = Except.ok (inputs.map (padRow side pad (maxLen inputs))) := by
      refine tensorize_ok_of_forall (w := maxLen inputs) ?_
      intro r hr
      rcases List.mem_map.mp hr with ⟨a, ha, rfl⟩
      exact length_padRow side pad (le_maxLen ha)
    have tAM : tensorize (inputs.map (maskRow side (maxLen inputs)))
        = Except.ok (inputs.map (maskRow side (maxLen inputs))) := by
      refine tensorize_ok_of_forall (w := maxLen inputs) ?_
      intro r hr
      rcases List.mem_map.mp hr with ⟨a, ha, rfl⟩
      exact length_maskRow side (le_maxLen ha)
    have tLS : tensorize (outs.map (fun a => a ++ List.replicate (maxLen outs - a.length) (-100)))
        = Except.ok (outs.map (fun a => a ++ List.replicate (maxLen outs - a.length) (-100))) := by
      refine tensorize_ok_of_forall (w := maxLen outs) ?_
      intro r hr
      rcases List.mem_map.mp hr with ⟨a, ha, rfl⟩
      have := le_maxLen ha
      simp only [List.length_append, List.length_replicate]
      omega
    refine ⟨⟨inputs.map (padRow side pad (maxLen inputs)),
        some (inputs.map (maskRow side (maxLen inputs))),
        some (outs.map (fun a => a ++ List.replicate (maxLen outs - a.length) (-100)))⟩, ?_, rfl⟩
    simp only [_pad, hraw, Bool.false_eq_true, if_false, tII, tAM, tLS, tensorizeOpt,
      Except.map]

/-- C4 witness: two-row batch, left padding, `no_mask` for the error part. -/
theorem c4_encdec_labels_right_padded_witness :
    ([[1], [2, 3]] : List (List Int)) ≠ [] ∧ ([[7], [8, 9]] : List (List Int)) ≠ []
    ∧ some LossMask.no_mask ≠ some LossMask.output_only
    ∧ ((some LossMask.no_mask ≠ some LossMask.output_only →
        _pad [[1], [2, 3]] (some [[7], [8, 9]]) 9 PaddingSide.left true
            (some LossMask.no_mask) false (-100)
          = Except.error "only output_only loss mask is supported with encoder decoder models")
      ∧ ∃ res, _pad [[1], [2, 3]] (some [[7], [8, 9]]) 9 PaddingSide.left true
            (some LossMask.output_only) false (-100) = Except.ok res
          ∧ res.labels = some (([[7], [8, 9]] : List (List Int)).map
              (fun a => a ++ List.replicate (maxLen [[7], [8, 9]] - a.length) (-100)))) :=
  ⟨by decide, by decide, by decide,
    c4_encdec_labels_right_padded [[1], [2, 3]] [[7], [8, 9]] 9 PaddingSide.left
      (some LossMask.no_mask) (by decide) (by decide)⟩

theorem tensorize_padRows (side : PaddingSide) (pad : Int) (inputs : List (List Int)) :
    tensorize (inputs.map (padRow side pad (maxLen inputs)))
      = Except.ok (inputs.map (padRow side pad (maxLen inputs))) := by
  refine tensorize_ok_of_forall (w := maxLen inputs) ?_
  intro r hr
  rcases List.mem_map.mp hr with ⟨a, ha, rfl⟩
  exact length_padRow side pad (le_maxLen ha)

theorem tensorize_maskRows (side : PaddingSide) (inputs : List (List Int)) :
    tensorize (inputs.map (maskRow side (maxLen inputs)))
      = Except.ok (inputs.map (maskRow side (maxLen inputs))) := by
  refine tensorize_ok_of_forall (w := maxLen inputs) ?_
  intro r hr
  rcases List.mem_map.mp hr with ⟨a, ha, rfl⟩
  exact length_maskRow side (le_maxLen ha)

theorem encdec_attention_of_ok {inputs : List (List Int)} {outputs : Option (List (List Int))}
    {pad : Int} {side : PaddingSide} {lm : Option LossMask} {res : PadResult}
    (h : _pad inputs outputs pad side true lm false (-100) = Except.ok res) :
    res.attention_mask = some (inputs.map (maskRow side (maxLen inputs))) := by
  by_cases hne : inputs = []
  · subst hne
    simp [_pad, _padRaw] at h
  · have hE : inputs.isEmpty = false := List.isEmpty_eq_false.mpr hne
    cases outputs with
    | none =>
      have hraw : _padRaw inputs none pad side true lm false (-100)
          = Except.ok ⟨inputs.map (padRow side pad (maxLen inputs)),
              some (inputs.map (maskRow side (maxLen inputs))), none⟩ := by
        simp [_padRaw, hE]
      simp only [_pad, hraw, Bool.false_eq_true, if_false, tensorize_padRows,
        tensorize_maskRows, tensorizeOpt, Except.map, Except.ok.injEq] at h
      rw [← h]
    | some outs =>
      by_cases hlm : lm = some LossMask.output_only
      · subst hlm
        by_cases hoe : outs = []
        · subst hoe
          simp [_pad, _padRaw, hE] at h
        · have hOE : outs.isEmpty = false := List.isEmpty_eq_false.mpr hoe
          have tLS : tensorize (outs.map (fun a => a ++ List.replicate (maxLen outs - a.length) (-100)))
              = Except.ok (outs.map (fun a => a ++ List.replicate (maxLen outs - a.length) (-100))) := by
            refine tensorize_ok_of_forall (w := maxLen outs) ?_
            intro r hr
            rcases List.mem_map.mp hr with ⟨a, ha, rfl⟩
            have := le_maxLen ha
            simp only [List.length_append, List.length_replicate]
            omega
          have hraw : _padRaw inputs (some outs) pad side true (some LossMask.output_only) false (-100)
              = Except.ok ⟨inputs.map (padRow side pad (maxLen inputs)),
                  some (inputs.map (maskRow side (maxLen inputs))),
                  some (outs.map (fun a => a ++ List.replicate (maxLen outs - a.length) (-100)))⟩ := by
            simp [_padRaw, hE, hOE]
          simp only [_pad, hraw, Bool.false_eq_true, if_false, tensorize_padRows,
            tensorize_maskRows, tLS, tensorizeOpt, Except.map, Except.ok.injEq] at h
          rw [← h]
      · simp [_pad, _padRaw, hE, hlm] at h

/-- C3: for every encoder-decoder batch and both padding sides, each row of
the attention mask returned by `_pad` sums to the original unpadded length of
the corresponding input sequence. -/
theorem c3_encdec_attention_row_sums (inputs : List (List Int))
    (outputs : Option (List (List Int))) (pad : Int) (side : PaddingSide)
    (lm : Option LossMask) (res : PadResult)
    (h : _pad inputs outputs pad side true lm false (-100) = Except.ok res) :
    ∃ am, res.attention_mask = some am ∧ am.length = inputs.length
      ∧ ∀ i, i < inputs.length → (am.getD i []).sum = ((inputs.getD i []).length : Int) := by
  refine ⟨inputs.map (maskRow side (maxLen inputs)), encdec_attention_of_ok h, by simp, ?_⟩
  intro i hi
  rw [getD_map_of_lt (maskRow side (maxLen inputs)) inputs i [] [] hi, sum_maskRow]

/-- C3 witness: a two-row encoder-decoder generation batch, left padding. -/
theorem c3_encdec_attention_row_sums_witness :
    _pad [[1], [2, 3]] none 9 PaddingSide.left true none false (-100)
      = Except.ok ⟨[[9, 1], [2, 3]], some [[0, 1], [1, 1]], none⟩
    ∧ ∃ am, (⟨[[9, 1], [2, 3]], some [[0, 1], [1, 1]], none⟩ : PadResult).attention_mask = some am
        ∧ am.length = ([[1], [2, 3]] : List (List Int)).length
        ∧ ∀ i, i < ([[1], [2, 3]] : List (List Int)).length →
            (am.getD i []).sum = ((([[1], [2, 3]] : List (List Int)).getD i []).length : Int) :=
  ⟨rfl,
    c3_encdec_attention_row_sums [[1], [2, 3]] none 9 PaddingSide.left none
      ⟨[[9, 1], [2, 3]], some [[0, 1], [1, 1]], none⟩ rfl⟩

theorem labelRowRight_sentinel_lo {mv : Int} {m : Nat} {ain aout : List Int} {p : Nat}
    (hp : p < ain.length - aout.length) :
    (labelRowRight mv m ain aout)[p]? = some mv := by
  unfold labelRowRight
  rw [List.append_assoc,
    List.getElem?_append_left (by simp only [List.length_replicate]; omega),
    List.getElem?_replicate, if_pos hp]

theorem labelRowRight_sentinel_hi {mv : Int} {m : Nat} {ain aout : List Int} {p : Nat}
    (h1 : aout.length ≤ ain.length) (hp1 : ain.length ≤ p) (hp2 : p < m) :
    (labelRowRight mv m ain aout)[p]? = some mv := by
  unfold labelRowRight
  have hlen2 : (List.replicate (ain.length - aout.length) mv ++ aout).length = ain.length := by
    simp only [List.length_append, List.length_replicate]
    omega
  rw [List.getElem?_append_right (by rw [hlen2]; exact hp1), hlen2, List.getElem?_replicate,
    if_pos (by omega)]

theorem labelRowRight_output {mv : Int} {m : Nat} {ain aout : List Int} {p : Nat}
    (hp : p < aout.length) :
    (labelRowRight mv m ain aout)[ain.length - aout.length + p]? = aout[p]? := by
  unfold labelRowRight
  rw [List.append_assoc,
    List.getElem?_append_right (by simp only [List.length_replicate]; exact Nat.le_add_right _ p)]
  simp only [List.length_replicate]
  rw [show ain.length - aout.length + p - (ain.length - aout.length) = p by omega,
    List.getElem?_append_left hp]

/-- C1: decoder-only, non-packed, right padding, `output_only` loss mask:
`_pad` succeeds and returns, for each row `i`, a labels row of length
`max_length` (the batch-wide max input length) whose positions
`[0, len(input_i)-len(output_i))` and `[len(input_i), max_length)` hold the
sentinel `-100` and whose positions `[len(input_i)-len(output_i),
len(input_i))` hold `output_i` exactly.  Hypotheses record the documented
batch invariant: one output per input, each output no longer than its input. -/
theorem c1_right_padding_output_only_labels (inputs outs : List (List Int)) (pad : Int)
    (hne : inputs ≠ []) (hlen : outs.length = inputs.length)
    (hout : ∀ i, i < inputs.length → (outs.getD i []).length ≤ (inputs.getD i []).length) :
    ∃ res, _pad inputs (some outs) pad PaddingSide.right false (some LossMask.output_only)
        false (-100) = Except.ok res
    ∧ ∃ L, res.labels = some L ∧ L.length = inputs.length
    ∧ ∀ i, i < inputs.length →
        ∃ row, L[i]? = some row
        ∧ row.length = maxLen inputs
        ∧ (∀ p, p < (inputs.getD i []).length - (outs.getD i []).length → row[p]? = some (-100))
        ∧ (∀ p, (inputs.getD i []).length ≤ p → p < maxLen inputs → row[p]? = some (-100))
        ∧ (∀ p, p < (outs.getD i []).length →
            row[(inputs.getD i []).length - (outs.getD i []).length + p]? = (outs.getD i [])[p]?) := by
  have hE : inputs.isEmpty = false := List.isEmpty_eq_false.mpr hne
  have hraw : _padRaw inputs (some outs) pad PaddingSide.right false (some LossMask.output_only)
      false (-100)
      = Except.ok ⟨inputs.map (padRow PaddingSide.right pad (maxLen inputs)),
          some (inputs.map (maskRow PaddingSide.right (maxLen inputs))),
          some (List.zipWith (labelRowRight (-100) (maxLen inputs)) inputs outs)⟩ := by
    simp [_padRaw, hE]
  have hLlen : (List.zipWith (labelRowRight (-100) (maxLen inputs)) inputs outs).length
      = inputs.length := by
    simp [List.length_zipWith, hlen]
  have hrowlen : ∀ r ∈ List.zipWith (labelRowRight (-100) (maxLen inputs)) inputs outs,
      r.length = maxLen inputs := by
    intro r hr
    rcases List.mem_iff_getElem.mp hr with ⟨i, hiL, rfl⟩
    have hi : i < inputs.length := by rw [hLlen] at hiL; exact hiL
    have hio : i < outs.length := by omega
    rw [List.getElem_zipWith]
    have h1 : outs[i].length ≤ inputs[i].length := by
      have := hout i hi
      rwa [getD_of_lt _ _ _ hio, getD_of_lt _ _ _ hi] at this
    have h2 : inputs[i].length ≤ maxLen inputs := le_maxLen (List.getElem_mem hi)
    simp only [labelRowRight, List.length_append, List.length_replicate]
    omega
  have tLS : tensorize (List.zipWith (labelRowRight (-100) (maxLen inputs)) inputs outs)
      = Except.ok (List.zipWith (labelRowRight (-100) (maxLen inputs)) inputs outs) :=
    tensorize_ok_of_forall hrowlen
  refine ⟨⟨inputs.map (padRow PaddingSide.right pad (maxLen inputs)),
      some (inputs.map (maskRow PaddingSide.right (maxLen inputs))),
      some (List.zipWith (labelRowRight (-100) (maxLen inputs)) inputs outs)⟩, ?_,
    List.zipWith (labelRowRight (-100) (maxLen inputs)) inputs outs, rfl, hLlen, ?_⟩
  · simp only [_pad, hraw, Bool.false_eq_true, if_false, tensorize_padRows, tensorize_maskRows,
      tLS, tensorizeOpt, Except.map]
  · intro i hi
    have hio : i < outs.length := by omega
    have hiL : i < (List.zipWith (labelRowRight (-100) (maxLen inputs)) inputs outs).length := by
      rw [hLlen]; exact hi
    have h1 : (outs.getD i []).length ≤ (inputs.getD i []).length := hout i hi
    refine ⟨labelRowRight (-100) (maxLen inputs) (inputs.getD i []) (outs.getD i []),
      ?_, ?_, ?_, ?_, ?_⟩
    · rw [List.getElem?_eq_getElem hiL, List.getElem_zipWith,
        getD_of_lt _ _ _ hi, getD_of_lt _ _ _ hio]
    · have h2 : (inputs.getD i []).length ≤ maxLen inputs := by
        rw [getD_of_lt _ _ _ hi]
        exact le_maxLen (List.getElem_mem hi)
      simp only [labelRowRight, List.length_append, List.length_replicate]
      omega
    · intro p hp
      exact labelRowRight_sentinel_lo hp
    · intro p hp1 hp2
      exact labelRowRight_sentinel_hi h1 hp1 hp2
    · intro p hp
      exact labelRowRight_output hp

/-- C1 witness: batch `inputs = [[1,2],[3]]`, `outs = [[2],[3]]`, right
padding. -/
theorem c1_right_padding_output_only_labels_witness :
    ([[1, 2], [3]] : List (List Int)) ≠ []
    ∧ ([[2], [3]] : List (List Int)).length = ([[1, 2], [3]] : List (List Int)).length
    ∧ (∀ i, i < ([[1, 2], [3]] : List (List Int)).length →
        (([[2], [3]] : List (List Int)).getD i []).length
          ≤ (([[1, 2], [3]] : List (List Int)).getD i []).length)
    ∧ ∃ res, _pad [[1, 2], [3]] (some [[2], [3]]) 9 PaddingSide.right false
          (some LossMask.output_only) false (-100) = Except.ok res
      ∧ ∃ L, res.labels = some L ∧ L.length = ([[1, 2], [3]] : List (List Int)).length
      ∧ ∀ i, i < ([[1, 2], [3]] : List (List Int)).length →
          ∃ row, L[i]? = some row
          ∧ row.length = maxLen [[1, 2], [3]]
          ∧ (∀ p, p < (([[1, 2], [3]] : List (List Int)).getD i []).length
                - (([[2], [3]] : List (List Int)).getD i []).length → row[p]? = some (-100))
          ∧ (∀ p, (([[1, 2], [3]] : List (List Int)).getD i []).length ≤ p →
              p < maxLen [[1, 2], [3]] → row[p]? = some (-100))
          ∧ (∀ p, p < (([[2], [3]] : List (List Int)).getD i []).length →
              row[(([[1, 2], [3]] : List (List Int)).getD i []).length
                - (([[2], [3]] : List (List Int)).getD i []).length + p]?
                = (([[2], [3]] : List (List Int)).getD i [])[p]?) :=
  ⟨by decide, by decide, by decide,
    c1_right_padding_output_only_labels [[1, 2], [3]] [[2], [3]] 9
      (by decide) (by decide) (by decide)⟩

/-- C10: decoder-only, non-packed, `no_mask` (either padding side): the
labels built by the padding branch are exactly the original unpadded input
sequences (not the pad-extended `input_ids`), so the final tensor conversion
of labels succeeds only when all inputs already share one length, and in
that case the returned labels equal `input_ids` elementwise. -/
theorem c10_no_mask_labels_are_raw_inputs (inputs outs : List (List Int)) (pad : Int)
    (side : PaddingSide) (hne : inputs ≠ []) :
    (∃ r, _padRaw inputs (some outs) pad side false (some LossMask.no_mask) false (-100)
        = Except.ok r
      ∧ r.labels = some inputs
      ∧ r.input_ids = inputs.map (padRow side pad (maxLen inputs)))
    ∧ ((∃ res, _pad inputs (some outs) pad side false (some LossMask.no_mask) false (-100)
          = Except.ok res)
        ↔ allSameLength inputs = true)
    ∧ (∀ res, _pad inputs (some outs) pad side false (some LossMask.no_mask) false (-100)
          = Except.ok res
        → res.input_ids = inputs ∧ res.labels = some res.input_ids) := by
  have hE : inputs.isEmpty = false := List.isEmpty_eq_false.mpr hne
  have hraw : _padRaw inputs (some outs) pad side false (some LossMask.no_mask) false (-100)
      = Except.ok ⟨inputs.map (padRow side pad (maxLen inputs)),
          some (inputs.map (maskRow side (maxLen inputs))), some inputs⟩ := by
    cases side <;> simp [_padRaw, hE]
  have key : ∀ res, _pad inputs (some outs) pad side false (some LossMask.no_mask) false (-100)
        = Except.ok res
      → allSameLength inputs = true
        ∧ res = ⟨inputs.map (padRow side pad (maxLen inputs)),
            some (inputs.map (maskRow side (maxLen inputs))), some inputs⟩ := by
    intro res hok
    simp only [_pad, hraw, Bool.false_eq_true, if_false, tensorize_padRows, tensorize_maskRows,
      tensorizeOpt, Except.map] at hok
    cases ht : tensorize inputs with
    | error e =>
      rw [ht] at hok
      simp at hok
    | ok l =>
      obtain ⟨hall, hl⟩ := tensorize_ok_inv ht
      subst hl
      rw [ht] at hok
      simp only [Except.ok.injEq] at hok
      exact ⟨hall, hok.symm⟩
  refine ⟨⟨⟨inputs.map (padRow side pad (maxLen inputs)),
      some (inputs.map (maskRow side (maxLen inputs))), some inputs⟩, hraw, rfl, rfl⟩, ?_, ?_⟩
  · constructor
    · rintro ⟨res, hok⟩
      exact (key res hok).1
    · intro hall
      have tLAB : tensorize inputs = Except.ok inputs := by simp [tensorize, hall]
      refine ⟨⟨inputs.map (padRow side pad (maxLen inputs)),
          some (inputs.map (maskRow side (maxLen inputs))), some inputs⟩, ?_⟩
      simp only [_pad, hraw, Bool.false_eq_true, if_false, tensorize_padRows, tensorize_maskRows,
        tLAB, tensorizeOpt, Except.map]
  · intro res hok
    obtain ⟨hall, hres⟩ := key res hok
    have hlens := forall_of_allSameLength hall
    have hmax : maxLen inputs = (inputs.headD []).length :=
      le_antisymm (maxLen_le fun a ha => le_of_eq (hlens a ha)) (le_maxLen (headD_mem [] hne))
    have hid : inputs.map (padRow side pad (maxLen inputs)) = inputs := by
      have hcongr : inputs.map (padRow side pad (maxLen inputs)) = inputs.map id := by
        refine List.map_congr_left ?_
        intro a ha
        exact padRow_of_len_eq side pad (by rw [hmax]; exact hlens a ha)
      rw [hcongr, List.map_id]
    constructor
    · rw [hres]
      exact hid
    · rw [hres]
      simp only
      rw [hid]

/-- C10 witness: uniform-length batch `[[1,2],[3,4]]`, right padding. -/
theorem c10_no_mask_labels_are_raw_inputs_witness :
    ([[1, 2], [3, 4]] : List (List Int)) ≠ []
    ∧ ((∃ r, _padRaw [[1, 2], [3, 4]] (some [[2], [4]]) 9 PaddingSide.right false
          (some LossMask.no_mask) false (-100) = Except.ok r
        ∧ r.labels = some [[1, 2], [3, 4]]
        ∧ r.input_ids = ([[1, 2], [3, 4]] : List (List Int)).map
            (padRow PaddingSide.right 9 (maxLen [[1, 2], [3, 4]])))
      ∧ ((∃ res, _pad [[1, 2], [3, 4]] (some [[2], [4]]) 9 PaddingSide.right false
            (some LossMask.no_mask) false (-100) = Except.ok res)
          ↔ allSameLength [[1, 2], [3, 4]] = true)
      ∧ (∀ res, _pad [[1, 2], [3, 4]] (some [[2], [4]]) 9 PaddingSide.right false
            (some LossMask.no_mask) false (-100) = Except.ok res
          → res.input_ids = [[1, 2], [3, 4]] ∧ res.labels = some res.input_ids)) :=
  ⟨by decide,
    c10_no_mask_labels_are_raw_inputs [[1, 2], [3, 4]] [[2], [4]] 9 PaddingSide.right
      (by decide)⟩
